import Mathlib

/-!
# RSSlackPublisher: the deduplicating, rate-limited delivery loop of `main.go`

A shallow embedding of the part of `main` that starts once the ledger file
`sent_news.txt` has been read (line 116) and ends with the optional summary
notification (line 167), together with `contains` (lines 86-94).

Modelling conventions.

* Go strings are modelled by `String`; the only separator the program looks for
  is the one-byte line feed, so splitting by characters and splitting by bytes
  agree on well-formed UTF-8 text.
* Go `int` values are modelled by `Int`.  The two counters are incremented at
  most once per feed item, so they stay far below `2^63` and never wrap.
* The outside world (feed parser, webhook, file system) is an oracle: the
  result of each feed fetch is given as data, the error result of the `k`-th
  call to `SendSlackNotification` is `sendOk k`, and the result of the `k`-th
  attempt to append to the ledger file is `appendRes k`.
* An append either adds the whole line to the file or adds nothing (the write
  of a short line is taken to be atomic).
* Lines written by `log.Printf` are not modelled.
-/

namespace RSSlackPublisher

/-! ## Data model -/

/-- The fields of a `gofeed.Item` that `main` reads (line 141). -/
structure Item where
  Title : String
  Link : String
  Published : String
  deriving DecidableEq, Repr

/-- The field of `Config` (lines 24-28) that the loop reads.  `RSSFeeds` is
represented by the list of fetch results handed to `main`, and `SlackWebhook`
only selects the endpoint that the send oracle stands for. -/
structure Config where
  MaxNewsCount : Int
  deriving DecidableEq, Repr

/-- Result of the attempt to append one line to `sent_news.txt` (lines 149-158). -/
inductive AppendResult where
  /-- Failure of `os.OpenFile` (line 150): logged, `continue`. -/
  | openFail
  /-- Failure of `f.WriteString` (line 156): logged. -/
  | writeFail
  /-- The line was written. -/
  | ok
  deriving DecidableEq, Repr

/-- The outside world as seen by one run. -/
structure Env where
  /-- Whether the `k`-th call of `SendSlackNotification` returns a nil error. -/
  sendOk : Nat → Bool
  /-- What happens at the `k`-th attempt to append to the ledger file. -/
  appendRes : Nat → AppendResult

/-- Which branch of the loop body (lines 134-159) an item took. -/
inductive Outcome where
  /-- Line 134: `contains(sentNews, item.Link)` holds, the body is not entered. -/
  | skipped
  /-- Line 138: counted as unsent, the limit is reached, `continue`. -/
  | deferred
  /-- Line 145: `SendSlackNotification` returned an error, `continue`. -/
  | sendFailed
  /-- Line 152: delivered and counted, the ledger file could not be opened. -/
  | openFailed
  /-- Line 157: delivered and counted, the write to the ledger file failed. -/
  | writeFailed
  /-- Line 154: delivered, counted, and the link was appended to the ledger file. -/
  | recorded
  deriving DecidableEq, Repr

/-- The mutable state of a run: the two counters of lines 122-123, the
contents of `sent_news.txt`, and a record of what the run did. -/
structure RunState where
  totalSentCount : Int
  unsentItemCount : Int
  /-- Current contents of `sent_news.txt`. -/
  file : String
  /-- Every call of `SendSlackNotification` so far: the message and whether
  the call returned a nil error. -/
  slack : List (String × Bool)
  /-- Number of attempts to append to the ledger file so far. -/
  appends : Nat
  /-- The items processed so far, each with the branch it took. -/
  trace : List (Item × Outcome)
  deriving DecidableEq, Repr

/-! ## Operations -/

/-- Go's `strings.Split(s, sep)` for a one-character separator, on character
lists: the pieces between separators, one more than there are separators. -/
def splitChars (sep : Char) : List Char → List (List Char)
  | [] => [[]]
  | c :: cs =>
    if c = sep then [] :: splitChars sep cs
    else
      match splitChars sep cs with
      | [] => [[c]]
      | h :: t => (c :: h) :: t

/-- The call `strings.Split(string(data), "\n")` of line 120. -/
def Split (data : String) : List String :=
  (splitChars '\n' data.data).map String.mk

/-- Lines 86-94: linear scan of a slice for a string. -/
def contains (slice : List String) (item : String) : Bool :=
  match slice with
  | [] => false
  | a :: rest => if a = item then true else contains rest item

/-- The verb `%d` of `fmt.Sprintf` applied to an `int`. -/
def fmtD : Int → String
  | Int.ofNat n => Nat.repr n
  | Int.negSucc n => "-" ++ Nat.repr (n + 1)

/-- Line 141: the message for one item. -/
def itemMsg (item : Item) : String :=
  "Title: " ++ item.Title ++ "\nLink: " ++ item.Link ++ "\nPublished: " ++ item.Published

/-- Lines 164-165: the summary message. -/
def summaryMsg (totalSentCount unsentItemCount : Int) : String :=
  let remainingNews := unsentItemCount - totalSentCount
  "Limit reached. Sent " ++ fmtD totalSentCount ++ " out of " ++ fmtD unsentItemCount ++
    " unsent news items. " ++ fmtD remainingNews ++
    " news items will be considered in the next run."

/-- The body of the inner loop, lines 134-159, for one item. -/
def processItem (config : Config) (env : Env) (sentNews : List String)
    (st : RunState) (item : Item) : RunState :=
  if !contains sentNews item.Link then
    let st := { st with unsentItemCount := st.unsentItemCount + 1 }
    if st.totalSentCount ≥ config.MaxNewsCount then
      { st with trace := st.trace ++ [(item, Outcome.deferred)] }
    else
      let msg := itemMsg item
      let sent := env.sendOk st.slack.length
      let st := { st with slack := st.slack ++ [(msg, sent)] }
      if !sent then
        { st with trace := st.trace ++ [(item, Outcome.sendFailed)] }
      else
        let st := { st with totalSentCount := st.totalSentCount + 1 }
        let res := env.appendRes st.appends
        let st := { st with appends := st.appends + 1 }
        match res with
        | AppendResult.openFail =>
          { st with trace := st.trace ++ [(item, Outcome.openFailed)] }
        | AppendResult.writeFail =>
          { st with trace := st.trace ++ [(item, Outcome.writeFailed)] }
        | AppendResult.ok =>
          { st with file := st.file ++ (item.Link ++ "\n"),
                    trace := st.trace ++ [(item, Outcome.recorded)] }
  else
    { st with trace := st.trace ++ [(item, Outcome.skipped)] }

/-- The body of the outer loop, lines 127-160, for one configured feed whose
fetch gave `fetched`: `none` when `fp.ParseURL` returned an error. -/
def processFeed (config : Config) (env : Env) (sentNews : List String)
    (st : RunState) (fetched : Option (List Item)) : RunState :=
  match fetched with
  | none => st
  | some items => items.foldl (processItem config env sentNews) st

/-- The state before the first feed, lines 122-123. -/
def initState (data : String) : RunState :=
  { totalSentCount := 0, unsentItemCount := 0, file := data,
    slack := [], appends := 0, trace := [] }

/-- Lines 120-161: load the ledger text and run over all feeds. -/
def feedLoop (config : Config) (env : Env) (data : String)
    (feeds : List (Option (List Item))) : RunState :=
  let sentNews := Split data
  feeds.foldl (processFeed config env sentNews) (initState data)

/-- Lines 163-167: the summary notification; its error result is dropped. -/
def sendSummary (env : Env) (st : RunState) : RunState :=
  if st.unsentItemCount > st.totalSentCount ∧ st.totalSentCount > 0 then
    let msg := summaryMsg st.totalSentCount st.unsentItemCount
    { st with slack := st.slack ++ [(msg, env.sendOk st.slack.length)] }
  else st

/-- The run of `main` from line 120 on: `data` is what `os.ReadFile` returned
for `sent_news.txt`, `feeds` the fetch result for each entry of
`config.RSSFeeds`, in configured order. -/
def main (config : Config) (env : Env) (data : String)
    (feeds : List (Option (List Item))) : RunState :=
  sendSummary env (feedLoop config env data feeds)

/-! ## Vocabulary for the statements -/

/-- An environment in which every send and every append succeeds. -/
def Env.allOk : Env := { sendOk := fun _ => true, appendRes := fun _ => AppendResult.ok }

/-- All items of the feeds that were fetched, in processing order. -/
def allItems (feeds : List (Option (List Item))) : List Item :=
  (feeds.map (fun r => r.getD [])).flatten

/-- An item with only a link. -/
def linkItem (l : String) : Item := { Title := "", Link := l, Published := "" }

/-- Branches in which `SendSlackNotification` was called for the item. -/
def Outcome.attempted : Outcome → Bool
  | Outcome.sendFailed | Outcome.openFailed | Outcome.writeFailed | Outcome.recorded => true
  | _ => false

/-- Branches in which `SendSlackNotification` returned a nil error for the item. -/
def Outcome.delivered : Outcome → Bool
  | Outcome.openFailed | Outcome.writeFailed | Outcome.recorded => true
  | _ => false

/-- Branches entered through line 135: the item counted as unsent. -/
def Outcome.unseen : Outcome → Bool
  | Outcome.skipped => false
  | _ => true

/-- The calls of `SendSlackNotification` that a trace accounts for. -/
def sendsOf (tr : List (Item × Outcome)) : List (String × Bool) :=
  (tr.filter (fun e => e.2.attempted)).map (fun e => (itemMsg e.1, e.2.delivered))

/-- Links of the items of a trace that were delivered and appended, in order. -/
def recordedLinks (tr : List (Item × Outcome)) : List String :=
  (tr.filter (fun e => e.2 = Outcome.recorded)).map (fun e => e.1.Link)

/-- The text produced by appending `l ++ "\n"` for each `l`, in order. -/
def concatLines : List String → String
  | [] => ""
  | l :: ls => (l ++ "\n") ++ concatLines ls

/-- Number of items whose link fails the `contains` test against `sentNews`. -/
def unseenCount (sentNews : List String) (items : List Item) : Nat :=
  items.countP (fun it => !contains sentNews it.Link)

/-- A ledger text as the program itself produces it: empty, or ending in a
line feed. -/
def LedgerTerminated (data : String) : Prop :=
  data = "" ∨ data.data.getLast? = some '\n'

instance (data : String) : Decidable (LedgerTerminated data) := by
  unfold LedgerTerminated; infer_instance

/-- A string without a line feed. -/
def NewlineFree (s : String) : Prop := '\n' ∉ s.data

instance (s : String) : Decidable (NewlineFree s) := by
  unfold NewlineFree; infer_instance

/-- What holds of the state of a run that loaded `data`, after any number of
items: the counters, the file and the record of sends are all determined by
the trace, and the trace records the branch conditions. -/
structure Inv (config : Config) (env : Env) (data : String) (st : RunState) : Prop where
  total_eq : st.totalSentCount = (st.trace.countP (fun e => e.2.delivered) : Nat)
  unsent_eq : st.unsentItemCount = (st.trace.countP (fun e => e.2.unseen) : Nat)
  file_eq : st.file = data ++ concatLines (recordedLinks st.trace)
  slack_eq : st.slack = sendsOf st.trace
  appends_eq : st.appends = st.trace.countP (fun e => e.2.delivered)
  skipped_iff : ∀ e ∈ st.trace,
    (e.2 = Outcome.skipped ↔ contains (Split data) e.1.Link = true)
  deferred_cap : ∀ e ∈ st.trace, e.2 = Outcome.deferred →
    config.MaxNewsCount ≤ st.totalSentCount
  cap : 0 ≤ config.MaxNewsCount → st.totalSentCount ≤ config.MaxNewsCount
  sendFailed_env : ∀ e ∈ st.trace, e.2 = Outcome.sendFailed → ∃ k, env.sendOk k = false
  delivered_env : ∀ e ∈ st.trace, e.2.delivered = true → ∃ k, env.sendOk k = true
  openFailed_env : ∀ e ∈ st.trace, e.2 = Outcome.openFailed →
    ∃ k, env.appendRes k = AppendResult.openFail
  writeFailed_env : ∀ e ∈ st.trace, e.2 = Outcome.writeFailed →
    ∃ k, env.appendRes k = AppendResult.writeFail

/-! ## Strings, `Split` and `contains` -/

theorem contains_eq_true_iff (slice : List String) (item : String) :
    contains slice item = true ↔ item ∈ slice := by
  induction slice with
  | nil => simp [contains]
  | cons a rest ih =>
    unfold contains
    by_cases h : a = item
    · simp [h]
    · have h2 : ¬ item = a := fun e => h e.symm
      simp [h, h2, ih]

theorem contains_eq_false_iff (slice : List String) (item : String) :
    contains slice item = false ↔ item ∉ slice := by
  rw [← contains_eq_true_iff]; simp

theorem splitChars_ne_nil (sep : Char) (s : List Char) : splitChars sep s ≠ [] := by
  cases s with
  | nil => simp [splitChars]
  | cons c cs =>
    unfold splitChars
    split_ifs
    · simp
    · split <;> simp

/-- Splitting at a separator: the pieces before it followed by the pieces after it. -/
theorem splitChars_append_sep (sep : Char) (a b : List Char) :
    splitChars sep (a ++ sep :: b) = splitChars sep a ++ splitChars sep b := by
  induction a with
  | nil => simp [splitChars]
  | cons c cs ih =>
    by_cases h : c = sep
    · simp [splitChars, h, ih]
    · have hne := splitChars_ne_nil sep cs
      simp only [List.cons_append, splitChars, h, if_false]
      have ih2 : splitChars sep (cs.append (sep :: b))
          = splitChars sep cs ++ splitChars sep b := ih
      rw [ih2]
      cases hs : splitChars sep cs with
      | nil => exact absurd hs hne
      | cons x xs => simp

theorem splitChars_of_not_mem (sep : Char) (s : List Char) (h : sep ∉ s) :
    splitChars sep s = [s] := by
  induction s with
  | nil => simp [splitChars]
  | cons c cs ih =>
    have hc : ¬ c = sep := fun e => h (by simp [e])
    have hcs : sep ∉ cs := fun e => h (by simp [e])
    simp [splitChars, hc, ih hcs]

theorem concatLines_append (a b : List String) :
    concatLines (a ++ b) = concatLines a ++ concatLines b := by
  induction a with
  | nil => simp [concatLines]
  | cons x xs ih => simp [concatLines, ih, String.append_assoc]

theorem map_mk_map_data (l : List String) : List.map String.mk (List.map String.data l) = l := by
  induction l with
  | nil => rfl
  | cons a as ih => simp [ih]

/-- Pieces of a text made of newline-free lines, each followed by a line feed. -/
theorem splitChars_concatLines (ls : List String) (h : ∀ l ∈ ls, NewlineFree l) :
    splitChars '\n' (concatLines ls).data = ls.map String.data ++ [[]] := by
  induction ls with
  | nil => simp [concatLines, splitChars]
  | cons x xs ih =>
    have hx : '\n' ∉ x.data := h x (by simp)
    have hxs : ∀ l ∈ xs, NewlineFree l := fun l hl => h l (by simp [hl])
    have e : (concatLines (x :: xs)).data = x.data ++ '\n' :: (concatLines xs).data := by
      simp [concatLines]
    rw [e, splitChars_append_sep, splitChars_of_not_mem _ _ hx, ih hxs]
    simp

/-- The entries of a text written from the empty file. -/
theorem Split_concatLines (ls : List String) (h : ∀ l ∈ ls, NewlineFree l) :
    Split (concatLines ls) = ls ++ [""] := by
  simp only [Split, splitChars_concatLines ls h, List.map_append, map_mk_map_data]
  rfl

/-- A terminated ledger text followed by newline-free lines: the entries are the
old entries and the new lines. -/
theorem mem_Split_append_concatLines (data : String) (ls : List String)
    (hd : LedgerTerminated data) (h : ∀ l ∈ ls, NewlineFree l) (x : String) :
    x ∈ Split (data ++ concatLines ls) ↔ x ∈ Split data ∨ x ∈ ls := by
  rcases hd with hd | hd
  · subst hd
    rw [String.empty_append, Split_concatLines ls h]
    have : Split "" = [""] := by decide
    simp [this]
    tauto
  · obtain ⟨t, ht⟩ : ∃ t, data.data = t ++ ['\n'] := by
      rcases List.eq_nil_or_concat data.data with h0 | ⟨t, c, htc⟩
      · rw [h0] at hd; simp at hd
      · rw [htc] at hd
        simp at hd
        exact ⟨t, by rw [htc, hd]; simp⟩
    have e1 : Split data = List.map String.mk (splitChars '\n' t) ++ [""] := by
      have : t ++ ['\n'] = t ++ '\n' :: [] := rfl
      simp only [Split, ht, this, splitChars_append_sep, List.map_append]
      rfl
    have e2 : Split (data ++ concatLines ls)
        = List.map String.mk (splitChars '\n' t) ++ (ls ++ [""]) := by
      have : (data ++ concatLines ls).data = t ++ '\n' :: (concatLines ls).data := by
        simp [ht]
      simp only [Split, this, splitChars_append_sep, List.map_append,
        splitChars_concatLines ls h, map_mk_map_data]
      rfl
    rw [e1, e2]
    simp only [List.mem_append, List.mem_singleton]
    tauto

/-! ## The loop body, branch by branch -/

theorem processItem_skipped (config : Config) (env : Env) (sentNews : List String)
    (st : RunState) (item : Item) (hc : contains sentNews item.Link = true) :
    processItem config env sentNews st item
      = { st with trace := st.trace ++ [(item, Outcome.skipped)] } := by
  simp [processItem, hc]

theorem processItem_deferred (config : Config) (env : Env) (sentNews : List String)
    (st : RunState) (item : Item) (hc : contains sentNews item.Link = false)
    (hcap : config.MaxNewsCount ≤ st.totalSentCount) :
    processItem config env sentNews st item
      = { st with unsentItemCount := st.unsentItemCount + 1,
                  trace := st.trace ++ [(item, Outcome.deferred)] } := by
  simp [processItem, hc, hcap]

theorem processItem_sendFailed (config : Config) (env : Env) (sentNews : List String)
    (st : RunState) (item : Item) (hc : contains sentNews item.Link = false)
    (hcap : st.totalSentCount < config.MaxNewsCount)
    (hs : env.sendOk st.slack.length = false) :
    processItem config env sentNews st item
      = { st with unsentItemCount := st.unsentItemCount + 1,
                  slack := st.slack ++ [(itemMsg item, false)],
                  trace := st.trace ++ [(item, Outcome.sendFailed)] } := by
  simp [processItem, hc, not_le.mpr hcap, hs]

theorem processItem_openFailed (config : Config) (env : Env) (sentNews : List String)
    (st : RunState) (item : Item) (hc : contains sentNews item.Link = false)
    (hcap : st.totalSentCount < config.MaxNewsCount)
    (hs : env.sendOk st.slack.length = true)
    (ha : env.appendRes st.appends = AppendResult.openFail) :
    processItem config env sentNews st item
      = { st with unsentItemCount := st.unsentItemCount + 1,
                  slack := st.slack ++ [(itemMsg item, true)],
                  totalSentCount := st.totalSentCount + 1,
                  appends := st.appends + 1,
                  trace := st.trace ++ [(item, Outcome.openFailed)] } := by
  simp [processItem, hc, not_le.mpr hcap, hs, ha]

theorem processItem_writeFailed (config : Config) (env : Env) (sentNews : List String)
    (st : RunState) (item : Item) (hc : contains sentNews item.Link = false)
    (hcap : st.totalSentCount < config.MaxNewsCount)
    (hs : env.sendOk st.slack.length = true)
    (ha : env.appendRes st.appends = AppendResult.writeFail) :
    processItem config env sentNews st item
      = { st with unsentItemCount := st.unsentItemCount + 1,
                  slack := st.slack ++ [(itemMsg item, true)],
                  totalSentCount := st.totalSentCount + 1,
                  appends := st.appends + 1,
                  trace := st.trace ++ [(item, Outcome.writeFailed)] } := by
  simp [processItem, hc, not_le.mpr hcap, hs, ha]

theorem processItem_recorded (config : Config) (env : Env) (sentNews : List String)
    (st : RunState) (item : Item) (hc : contains sentNews item.Link = false)
    (hcap : st.totalSentCount < config.MaxNewsCount)
    (hs : env.sendOk st.slack.length = true)
    (ha : env.appendRes st.appends = AppendResult.ok) :
    processItem config env sentNews st item
      = { st with unsentItemCount := st.unsentItemCount + 1,
                  slack := st.slack ++ [(itemMsg item, true)],
                  totalSentCount := st.totalSentCount + 1,
                  appends := st.appends + 1,
                  file := st.file ++ (item.Link ++ "\n"),
                  trace := st.trace ++ [(item, Outcome.recorded)] } := by
  simp [processItem, hc, not_le.mpr hcap, hs, ha]

/-! ## The invariant -/

theorem recordedLinks_append (a b : List (Item × Outcome)) :
    recordedLinks (a ++ b) = recordedLinks a ++ recordedLinks b := by
  simp [recordedLinks]

theorem sendsOf_append (a b : List (Item × Outcome)) :
    sendsOf (a ++ b) = sendsOf a ++ sendsOf b := by
  simp [sendsOf]

theorem Inv_init (config : Config) (env : Env) (data : String) :
    Inv config env data (initState data) := by
  constructor <;> simp [initState, recordedLinks, sendsOf, concatLines]

/-- One step of the loop, described by the branch `o` it took, keeps the invariant. -/
theorem Inv_step (config : Config) (env : Env) (data : String) (st st' : RunState)
    (item : Item) (o : Outcome) (h : Inv config env data st)
    (htrace : st'.trace = st.trace ++ [(item, o)])
    (htotal : st'.totalSentCount = st.totalSentCount + (if o.delivered then 1 else 0))
    (hunsent : st'.unsentItemCount = st.unsentItemCount + (if o.unseen then 1 else 0))
    (hfile : st'.file = st.file ++ concatLines (recordedLinks [(item, o)]))
    (hslack : st'.slack = st.slack ++ sendsOf [(item, o)])
    (happends : st'.appends = st.appends + (if o.delivered then 1 else 0))
    (hskip : o = Outcome.skipped ↔ contains (Split data) item.Link = true)
    (hdef : o = Outcome.deferred → config.MaxNewsCount ≤ st.totalSentCount)
    (hdel : o.delivered = true → st.totalSentCount < config.MaxNewsCount)
    (hsf : o = Outcome.sendFailed → ∃ k, env.sendOk k = false)
    (hde : o.delivered = true → ∃ k, env.sendOk k = true)
    (hof : o = Outcome.openFailed → ∃ k, env.appendRes k = AppendResult.openFail)
    (hwf : o = Outcome.writeFailed → ∃ k, env.appendRes k = AppendResult.writeFail) :
    Inv config env data st' := by
  have hmono : st.totalSentCount ≤ st'.totalSentCount := by
    rw [htotal]; split_ifs <;> omega
  constructor
  · rw [htotal, htrace, h.total_eq, List.countP_append]
    cases hd : o.delivered <;> simp [hd]
  · rw [hunsent, htrace, h.unsent_eq, List.countP_append]
    cases hd : o.unseen <;> simp [hd]
  · rw [hfile, htrace, h.file_eq, recordedLinks_append, concatLines_append,
      String.append_assoc]
  · rw [hslack, htrace, h.slack_eq, sendsOf_append]
  · rw [happends, htrace, h.appends_eq, List.countP_append]
    cases hd : o.delivered <;> simp [hd]
  · intro e he
    rw [htrace, List.mem_append, List.mem_singleton] at he
    rcases he with he | he
    · exact h.skipped_iff e he
    · subst he; exact hskip
  · intro e he hde
    rw [htrace, List.mem_append, List.mem_singleton] at he
    rcases he with he | he
    · exact le_trans (h.deferred_cap e he hde) hmono
    · subst he; exact le_trans (hdef hde) hmono
  · intro hN
    rw [htotal]
    cases hd : o.delivered
    · simpa using h.cap hN
    · have := hdel hd
      simp only [if_true]
      omega
  · intro e he hde
    rw [htrace, List.mem_append, List.mem_singleton] at he
    rcases he with he | he
    · exact h.sendFailed_env e he hde
    · subst he; exact hsf hde
  · intro e he hdl
    rw [htrace, List.mem_append, List.mem_singleton] at he
    rcases he with he | he
    · exact h.delivered_env e he hdl
    · subst he; exact hde hdl
  · intro e he hde
    rw [htrace, List.mem_append, List.mem_singleton] at he
    rcases he with he | he
    · exact h.openFailed_env e he hde
    · subst he; exact hof hde
  · intro e he hde
    rw [htrace, List.mem_append, List.mem_singleton] at he
    rcases he with he | he
    · exact h.writeFailed_env e he hde
    · subst he; exact hwf hde

theorem Inv_processItem (config : Config) (env : Env) (data : String) (st : RunState)
    (item : Item) (h : Inv config env data st) :
    Inv config env data (processItem config env (Split data) st item) := by
  cases hc : contains (Split data) item.Link
  · rcases le_or_lt config.MaxNewsCount st.totalSentCount with hcap | hcap
    · rw [processItem_deferred _ _ _ _ _ hc hcap]
      apply Inv_step config env data st _ item Outcome.deferred h <;>
        simp [Outcome.delivered, Outcome.unseen, Outcome.attempted, recordedLinks, sendsOf,
          concatLines, hc, hcap]
    · cases hs : env.sendOk st.slack.length
      · rw [processItem_sendFailed _ _ _ _ _ hc hcap hs]
        apply Inv_step config env data st _ item Outcome.sendFailed h <;>
          simp [Outcome.delivered, Outcome.unseen, Outcome.attempted, recordedLinks, sendsOf,
            concatLines, hc, hcap]
        exact ⟨_, hs⟩
      · cases ha : env.appendRes st.appends
        · rw [processItem_openFailed _ _ _ _ _ hc hcap hs ha]
          apply Inv_step config env data st _ item Outcome.openFailed h <;>
            simp [Outcome.delivered, Outcome.unseen, Outcome.attempted, recordedLinks, sendsOf,
              concatLines, hc, hcap]
          all_goals first | exact ⟨_, hs⟩ | exact ⟨_, ha⟩
        · rw [processItem_writeFailed _ _ _ _ _ hc hcap hs ha]
          apply Inv_step config env data st _ item Outcome.writeFailed h <;>
            simp [Outcome.delivered, Outcome.unseen, Outcome.attempted, recordedLinks, sendsOf,
              concatLines, hc, hcap]
          all_goals first | exact ⟨_, hs⟩ | exact ⟨_, ha⟩
        · rw [processItem_recorded _ _ _ _ _ hc hcap hs ha]
          apply Inv_step config env data st _ item Outcome.recorded h <;>
            simp [Outcome.delivered, Outcome.unseen, Outcome.attempted, recordedLinks, sendsOf,
              concatLines, hc, hcap]
          exact ⟨_, hs⟩
  · rw [processItem_skipped _ _ _ _ _ hc]
    apply Inv_step config env data st _ item Outcome.skipped h <;>
      simp [Outcome.delivered, Outcome.unseen, Outcome.attempted, recordedLinks, sendsOf,
        concatLines, hc]

theorem processItem_trace_exists (config : Config) (env : Env) (sentNews : List String)
    (st : RunState) (item : Item) :
    ∃ o, (processItem config env sentNews st item).trace = st.trace ++ [(item, o)] := by
  cases hc : contains sentNews item.Link
  · rcases le_or_lt config.MaxNewsCount st.totalSentCount with hcap | hcap
    · exact ⟨_, by rw [processItem_deferred _ _ _ _ _ hc hcap]⟩
    · cases hs : env.sendOk st.slack.length
      · exact ⟨_, by rw [processItem_sendFailed _ _ _ _ _ hc hcap hs]⟩
      · cases ha : env.appendRes st.appends
        · exact ⟨_, by rw [processItem_openFailed _ _ _ _ _ hc hcap hs ha]⟩
        · exact ⟨_, by rw [processItem_writeFailed _ _ _ _ _ hc hcap hs ha]⟩
        · exact ⟨_, by rw [processItem_recorded _ _ _ _ _ hc hcap hs ha]⟩
  · exact ⟨_, by rw [processItem_skipped _ _ _ _ _ hc]⟩

theorem processItem_trace (config : Config) (env : Env) (sentNews : List String)
    (st : RunState) (item : Item) :
    (processItem config env sentNews st item).trace.map Prod.fst
      = st.trace.map Prod.fst ++ [item] := by
  obtain ⟨o, ho⟩ := processItem_trace_exists config env sentNews st item
  simp [ho]

theorem Inv_foldl (config : Config) (env : Env) (data : String) (items : List Item)
    (st : RunState) (h : Inv config env data st) :
    Inv config env data (items.foldl (processItem config env (Split data)) st) := by
  induction items generalizing st with
  | nil => exact h
  | cons it its ih => exact ih _ (Inv_processItem config env data st it h)

theorem trace_foldl (config : Config) (env : Env) (sentNews : List String)
    (items : List Item) (st : RunState) :
    (items.foldl (processItem config env sentNews) st).trace.map Prod.fst
      = st.trace.map Prod.fst ++ items := by
  induction items generalizing st with
  | nil => simp
  | cons it its ih => simp [ih, processItem_trace]

/-- The loop over the feeds is the loop over all fetched items. -/
theorem foldl_processFeed (config : Config) (env : Env) (sentNews : List String)
    (feeds : List (Option (List Item))) (st : RunState) :
    feeds.foldl (processFeed config env sentNews) st
      = (allItems feeds).foldl (processItem config env sentNews) st := by
  induction feeds generalizing st with
  | nil => rfl
  | cons r rs ih =>
    cases r with
    | none => simpa [allItems, processFeed] using ih st
    | some items =>
      simp only [List.foldl_cons, processFeed, ih]
      simp [allItems, List.foldl_append]

theorem feedLoop_eq (config : Config) (env : Env) (data : String)
    (feeds : List (Option (List Item))) :
    feedLoop config env data feeds
      = (allItems feeds).foldl (processItem config env (Split data)) (initState data) :=
  foldl_processFeed config env (Split data) feeds (initState data)

theorem Inv_feedLoop (config : Config) (env : Env) (data : String)
    (feeds : List (Option (List Item))) :
    Inv config env data (feedLoop config env data feeds) := by
  rw [feedLoop_eq]
  exact Inv_foldl config env data _ _ (Inv_init config env data)

theorem trace_feedLoop (config : Config) (env : Env) (data : String)
    (feeds : List (Option (List Item))) :
    (feedLoop config env data feeds).trace.map Prod.fst = allItems feeds := by
  rw [feedLoop_eq, trace_foldl]
  simp [initState]

/-! ## The summary step and counting over a trace -/

theorem sendSummary_trace (env : Env) (st : RunState) :
    (sendSummary env st).trace = st.trace := by
  unfold sendSummary; split_ifs <;> rfl

theorem sendSummary_totalSentCount (env : Env) (st : RunState) :
    (sendSummary env st).totalSentCount = st.totalSentCount := by
  unfold sendSummary; split_ifs <;> rfl

theorem sendSummary_unsentItemCount (env : Env) (st : RunState) :
    (sendSummary env st).unsentItemCount = st.unsentItemCount := by
  unfold sendSummary; split_ifs <;> rfl

theorem sendSummary_file (env : Env) (st : RunState) :
    (sendSummary env st).file = st.file := by
  unfold sendSummary; split_ifs <;> rfl

theorem sendSummary_of_not (env : Env) (st : RunState)
    (h : ¬ (st.unsentItemCount > st.totalSentCount ∧ st.totalSentCount > 0)) :
    sendSummary env st = st := by
  unfold sendSummary; rw [if_neg h]

theorem delivered_imp_unseen (o : Outcome) (h : o.delivered = true) : o.unseen = true := by
  cases o <;> simp_all [Outcome.delivered, Outcome.unseen]

theorem delivered_imp_attempted (o : Outcome) (h : o.delivered = true) :
    o.attempted = true := by
  cases o <;> simp_all [Outcome.delivered, Outcome.attempted]

theorem countP_delivered_le_unseen (tr : List (Item × Outcome)) :
    tr.countP (fun e => e.2.delivered) ≤ tr.countP (fun e => e.2.unseen) :=
  List.countP_mono_left (fun e _ h => delivered_imp_unseen e.2 h)

/-- Successful calls among the sends of a trace are its delivered entries. -/
theorem length_filter_sendsOf (tr : List (Item × Outcome)) :
    ((sendsOf tr).filter (fun m => m.2)).length = tr.countP (fun e => e.2.delivered) := by
  induction tr with
  | nil => rfl
  | cons e es ih =>
    have ih2 : (List.filter (fun m => m.2) (sendsOf es)).length
        = List.countP (fun e => e.2.delivered) es := ih
    obtain ⟨it, o⟩ := e
    cases o <;>
      simp [sendsOf, Outcome.attempted, Outcome.delivered, List.filter_cons] <;>
      simpa [sendsOf] using ih2

/-- The unseen entries of a trace are the items that fail the `contains` test. -/
theorem countP_unseen_eq (sentNews : List String) (tr : List (Item × Outcome))
    (h : ∀ e ∈ tr, (e.2 = Outcome.skipped ↔ contains sentNews e.1.Link = true)) :
    tr.countP (fun e => e.2.unseen) = unseenCount sentNews (tr.map Prod.fst) := by
  induction tr with
  | nil => rfl
  | cons e es ih =>
    have hes : ∀ e ∈ es, (e.2 = Outcome.skipped ↔ contains sentNews e.1.Link = true) :=
      fun x hx => h x (by simp [hx])
    have he := h e (by simp)
    have ih2 := ih hes
    unfold unseenCount at ih2 ⊢
    rw [List.map_cons, List.countP_cons, List.countP_cons, ih2]
    congr 1
    cases hc : contains sentNews e.1.Link
    · have : e.2 ≠ Outcome.skipped := fun hs => by simp [he.mp hs] at hc
      cases ho : e.2 <;> simp_all [Outcome.unseen]
    · have := he.mpr hc
      simp [this, Outcome.unseen]

/-! ## The send cap -/

/-- C2: for a cap `N = max_news_count ≥ 0`, whatever the ledger, the feeds and the
results of the sends and appends, the number of successful item deliveries of a
run, which is `totalSentCount` at the end of the loop, is at most `N` and at
most `unsentItemCount`; and a call of `SendSlackNotification` that fails leaves
`totalSentCount` as it was. -/
theorem send_cap_never_exceeded (config : Config) (env : Env) (data : String)
    (feeds : List (Option (List Item))) (hN : 0 ≤ config.MaxNewsCount) :
    let st := main config env data feeds
    st.totalSentCount
        = (((feedLoop config env data feeds).slack.filter (fun m => m.2)).length : Nat)
    ∧ st.totalSentCount ≤ config.MaxNewsCount
    ∧ st.totalSentCount ≤ st.unsentItemCount
    ∧ ∀ (s : RunState) (item : Item), env.sendOk s.slack.length = false →
        (processItem config env (Split data) s item).totalSentCount = s.totalSentCount := by
  have hinv := Inv_feedLoop config env data feeds
  refine ⟨?_, ?_, ?_, ?_⟩
  · show (sendSummary env _).totalSentCount = _
    rw [sendSummary_totalSentCount, hinv.total_eq, hinv.slack_eq, length_filter_sendsOf]
  · show (sendSummary env _).totalSentCount ≤ _
    rw [sendSummary_totalSentCount]
    exact hinv.cap hN
  · show (sendSummary env _).totalSentCount ≤ (sendSummary env _).unsentItemCount
    rw [sendSummary_totalSentCount, sendSummary_unsentItemCount, hinv.total_eq,
      hinv.unsent_eq]
    exact_mod_cast countP_delivered_le_unseen _
  · intro s item hs
    cases hc : contains (Split data) item.Link
    · rcases le_or_lt config.MaxNewsCount s.totalSentCount with hcap | hcap
      · rw [processItem_deferred _ _ _ _ _ hc hcap]
      · rw [processItem_sendFailed _ _ _ _ _ hc hcap hs]
    · rw [processItem_skipped _ _ _ _ _ hc]

/-- Cap 1, three unseen items, the first send fails: one delivery, three unsent. -/
theorem send_cap_never_exceeded_witness :
    (0 : Int) ≤ 1 ∧
    (main ⟨1⟩ ⟨fun k => decide (k ≠ 0), fun _ => AppendResult.ok⟩ ""
        [some [linkItem "a", linkItem "b", linkItem "c"]]).totalSentCount = 1 ∧
    (main ⟨1⟩ ⟨fun k => decide (k ≠ 0), fun _ => AppendResult.ok⟩ ""
        [some [linkItem "a", linkItem "b", linkItem "c"]]).unsentItemCount = 3 ∧
    (main ⟨1⟩ ⟨fun k => decide (k ≠ 0), fun _ => AppendResult.ok⟩ ""
        [some [linkItem "a", linkItem "b", linkItem "c"]]).totalSentCount ≤ 1 :=
  ⟨by decide, by decide, by decide,
    (send_cap_never_exceeded ⟨1⟩ ⟨fun k => decide (k ≠ 0), fun _ => AppendResult.ok⟩ ""
      [some [linkItem "a", linkItem "b", linkItem "c"]] (by decide)).2.1⟩

/-! ## Items already in the ledger -/

/-- C3: in every run, each processed item is one of the fetched items, the calls
of `SendSlackNotification` made by the loop are exactly those of the items whose
branch attempted a send, and every such item has a link that fails the `contains`
test against the list loaded at run start; an item whose link passes the test
takes the skipped branch, which changes neither counter, sends nothing and leaves
the file alone. -/
theorem no_redelivery_of_recorded (config : Config) (env : Env) (data : String)
    (feeds : List (Option (List Item))) :
    let st := main config env data feeds
    st.trace.map Prod.fst = allItems feeds
    ∧ (feedLoop config env data feeds).slack = sendsOf st.trace
    ∧ (∀ e ∈ st.trace, e.2.attempted = true → contains (Split data) e.1.Link = false)
    ∧ (∀ e ∈ st.trace, contains (Split data) e.1.Link = true → e.2 = Outcome.skipped)
    ∧ ∀ (s : RunState) (item : Item), contains (Split data) item.Link = true →
        processItem config env (Split data) s item
          = { s with trace := s.trace ++ [(item, Outcome.skipped)] } := by
  have hinv := Inv_feedLoop config env data feeds
  have htr : (main config env data feeds).trace = (feedLoop config env data feeds).trace :=
    sendSummary_trace _ _
  refine ⟨?_, ?_, ?_, ?_, ?_⟩
  · show (main config env data feeds).trace.map Prod.fst = _
    rw [htr, trace_feedLoop]
  · show _ = sendsOf (main config env data feeds).trace
    rw [htr]; exact hinv.slack_eq
  · intro e he ha
    rw [htr] at he
    cases hc : contains (Split data) e.1.Link
    · rfl
    · have := (hinv.skipped_iff e he).mpr hc
      rw [this] at ha
      simp [Outcome.attempted] at ha
  · intro e he hc
    rw [htr] at he
    exact (hinv.skipped_iff e he).mpr hc
  · intro s item hc
    exact processItem_skipped _ _ _ _ _ hc

/-! ## The ledger file -/

/-- C4: in every run, the ledger file after the run is the initial text followed
by `link ++ "\n"` for exactly the items that took the recorded branch, in
processing order; and an item takes the recorded branch exactly when it is
unseen, the cap is not reached, its send succeeds and its append succeeds. -/
theorem ledger_append_only (config : Config) (env : Env) (data : String)
    (feeds : List (Option (List Item))) :
    let st := main config env data feeds
    st.file = data ++ concatLines (recordedLinks st.trace)
    ∧ st.trace.map Prod.fst = allItems feeds
    ∧ ∀ (s : RunState) (item : Item),
        ((processItem config env (Split data) s item).trace
            = s.trace ++ [(item, Outcome.recorded)]
          ↔ (contains (Split data) item.Link = false
              ∧ s.totalSentCount < config.MaxNewsCount
              ∧ env.sendOk s.slack.length = true
              ∧ env.appendRes s.appends = AppendResult.ok))
        ∧ ((processItem config env (Split data) s item).file
            = s.file ++ concatLines (recordedLinks
                ((processItem config env (Split data) s item).trace.drop s.trace.length))) := by
  have hinv := Inv_feedLoop config env data feeds
  have htr : (main config env data feeds).trace = (feedLoop config env data feeds).trace :=
    sendSummary_trace _ _
  refine ⟨?_, ?_, ?_⟩
  · show (main config env data feeds).file = _
    rw [htr]
    show (sendSummary env _).file = _
    rw [sendSummary_file]; exact hinv.file_eq
  · show (main config env data feeds).trace.map Prod.fst = _
    rw [htr, trace_feedLoop]
  · intro s item
    cases hc : contains (Split data) item.Link
    · rcases le_or_lt config.MaxNewsCount s.totalSentCount with hcap | hcap
      · rw [processItem_deferred _ _ _ _ _ hc hcap]
        simp [not_lt.mpr hcap, recordedLinks, concatLines]
      · cases hs : env.sendOk s.slack.length
        · rw [processItem_sendFailed _ _ _ _ _ hc hcap hs]
          simp [recordedLinks, concatLines]
        · cases ha : env.appendRes s.appends
          · rw [processItem_openFailed _ _ _ _ _ hc hcap hs ha]
            simp [recordedLinks, concatLines]
          · rw [processItem_writeFailed _ _ _ _ _ hc hcap hs ha]
            simp [recordedLinks, concatLines]
          · rw [processItem_recorded _ _ _ _ _ hc hcap hs ha]
            simp [recordedLinks, concatLines, hcap]
    · rw [processItem_skipped _ _ _ _ _ hc]
      simp [recordedLinks, concatLines]

/-! ## The summary notification -/

theorem fmtD_natCast (n : Nat) : fmtD (n : Int) = Nat.repr n := rfl

/-- C5: after all feeds are processed, one more notification is sent when
`unsentItemCount > totalSentCount` and `totalSentCount > 0`, and its text is
"Limit reached. Sent T out of U unsent news items. U-T news items will be
considered in the next run." with the decimal numerals of the two counters and of
their difference; otherwise nothing more is sent, in particular when
`totalSentCount = 0`, which is the case when `max_news_count = 0` and when every
send fails.  The summary step changes neither the counters nor the file. -/
theorem summary_condition_and_text (config : Config) (env : Env) (data : String)
    (feeds : List (Option (List Item))) :
    let st := feedLoop config env data feeds
    let fin := main config env data feeds
    (st.unsentItemCount > st.totalSentCount ∧ st.totalSentCount > 0 →
      ∃ t u : Nat, st.totalSentCount = t ∧ st.unsentItemCount = u ∧
        fin.slack = st.slack ++
          [("Limit reached. Sent " ++ Nat.repr t ++ " out of " ++ Nat.repr u ++
              " unsent news items. " ++ Nat.repr (u - t) ++
              " news items will be considered in the next run.",
            env.sendOk st.slack.length)])
    ∧ (¬ (st.unsentItemCount > st.totalSentCount ∧ st.totalSentCount > 0) →
        fin.slack = st.slack)
    ∧ (st.totalSentCount = 0 → fin.slack = st.slack)
    ∧ (config.MaxNewsCount = 0 → st.totalSentCount = 0 ∧ fin.slack = st.slack)
    ∧ ((∀ k, env.sendOk k = false) → st.totalSentCount = 0 ∧ fin.slack = st.slack)
    ∧ fin.totalSentCount = st.totalSentCount
    ∧ fin.unsentItemCount = st.unsentItemCount
    ∧ fin.file = st.file := by
  intro st fin
  have hinv : Inv config env data st := Inv_feedLoop config env data feeds
  have hfin : fin = sendSummary env st := rfl
  have hzero : st.totalSentCount = 0 → fin.slack = st.slack := by
    intro h0
    rw [hfin, sendSummary_of_not]
    rintro ⟨_, h⟩; omega
  refine ⟨?_, ?_, hzero, ?_, ?_, ?_, ?_, ?_⟩
  · intro hcond
    refine ⟨_, _, hinv.total_eq, hinv.unsent_eq, ?_⟩
    have hle : st.trace.countP (fun e => e.2.delivered)
        ≤ st.trace.countP (fun e => e.2.unseen) := countP_delivered_le_unseen _
    have hsub : st.unsentItemCount - st.totalSentCount
        = ((st.trace.countP (fun e => e.2.unseen)
            - st.trace.countP (fun e => e.2.delivered) : Nat) : Int) := by
      rw [hinv.total_eq, hinv.unsent_eq]; omega
    have hmsg : summaryMsg st.totalSentCount st.unsentItemCount
        = "Limit reached. Sent " ++ Nat.repr (st.trace.countP (fun e => e.2.delivered))
          ++ " out of " ++ Nat.repr (st.trace.countP (fun e => e.2.unseen))
          ++ " unsent news items. "
          ++ Nat.repr (st.trace.countP (fun e => e.2.unseen)
              - st.trace.countP (fun e => e.2.delivered))
          ++ " news items will be considered in the next run." := by
      unfold summaryMsg
      simp only [hsub, fmtD_natCast]
      rw [hinv.total_eq, hinv.unsent_eq, fmtD_natCast, fmtD_natCast]
    rw [hfin]
    unfold sendSummary
    rw [if_pos hcond]
    simp only [hmsg]
  · intro hn
    rw [hfin, sendSummary_of_not _ _ hn]
  · intro hN
    have h1 := hinv.cap (by omega)
    have h2 : (0 : Int) ≤ st.totalSentCount := by rw [hinv.total_eq]; omega
    have h0 : st.totalSentCount = 0 := by omega
    exact ⟨h0, hzero h0⟩
  · intro hfail
    have hc : st.trace.countP (fun e => e.2.delivered) = 0 := by
      rw [List.countP_eq_zero]
      intro e he hd
      obtain ⟨k, hk⟩ := hinv.delivered_env e he hd
      rw [hfail k] at hk
      exact Bool.noConfusion hk
    have h0 : st.totalSentCount = 0 := by rw [hinv.total_eq, hc]; rfl
    exact ⟨h0, hzero h0⟩
  · exact sendSummary_totalSentCount _ _
  · exact sendSummary_unsentItemCount _ _
  · exact sendSummary_file _ _

/-- Cap 2, five unseen items, a working sink: two item messages and the summary. -/
theorem summary_condition_and_text_witness :
    (main ⟨2⟩ Env.allOk ""
        [some [linkItem "a", linkItem "b"], some [linkItem "c", linkItem "d", linkItem "e"]]).slack
      = (feedLoop ⟨2⟩ Env.allOk ""
        [some [linkItem "a", linkItem "b"], some [linkItem "c", linkItem "d", linkItem "e"]]).slack
        ++ [("Limit reached. Sent 2 out of 5 unsent news items. 3 news items will be considered in the next run.",
              true)] := by
  obtain ⟨t, u, ht, hu, hs⟩ := (summary_condition_and_text ⟨2⟩ Env.allOk ""
    [some [linkItem "a", linkItem "b"], some [linkItem "c", linkItem "d", linkItem "e"]]).1
    (by decide)
  have ht2 : t = 2 := by
    have : (feedLoop ⟨2⟩ Env.allOk "" [some [linkItem "a", linkItem "b"],
      some [linkItem "c", linkItem "d", linkItem "e"]]).totalSentCount = 2 := by decide
    rw [this] at ht; exact_mod_cast ht.symm
  have hu5 : u = 5 := by
    have : (feedLoop ⟨2⟩ Env.allOk "" [some [linkItem "a", linkItem "b"],
      some [linkItem "c", linkItem "d", linkItem "e"]]).unsentItemCount = 5 := by decide
    rw [this] at hu; exact_mod_cast hu.symm
  subst ht2 hu5
  rw [hs]
  rfl

/-! ## Feeds that fail to fetch -/

theorem allItems_filter_isSome (feeds : List (Option (List Item))) :
    allItems (feeds.filter Option.isSome) = allItems feeds := by
  induction feeds with
  | nil => rfl
  | cons r rs ih =>
    cases r with
    | none => simpa [allItems] using ih
    | some items =>
      simp only [allItems, List.filter_cons, Option.isSome, if_true, List.map_cons,
        List.flatten_cons] at ih ⊢
      rw [ih]

theorem allItems_map_getD (feeds : List (Option (List Item))) :
    allItems (feeds.map (fun r => some (r.getD []))) = allItems feeds := by
  simp [allItems, Function.comp_def]

/-- C8: whatever feeds fail to fetch, the run is the same, in every component of
its final state (counters, ledger file, notifications sent, trace), as the run
over the list with the failing feeds removed, and as the run in which each
failing feed returned no items; the items processed are those of the feeds that
were fetched, in order. -/
theorem partial_feed_failure (config : Config) (env : Env) (data : String)
    (feeds : List (Option (List Item))) :
    main config env data feeds = main config env data (feeds.filter Option.isSome)
    ∧ main config env data feeds
        = main config env data (feeds.map (fun r => some (r.getD [])))
    ∧ (main config env data feeds).trace.map Prod.fst = allItems feeds := by
  refine ⟨?_, ?_, ?_⟩
  · unfold main
    rw [feedLoop_eq, feedLoop_eq, allItems_filter_isSome]
  · unfold main
    rw [feedLoop_eq, feedLoop_eq, allItems_map_getD]
  · show (sendSummary env _).trace.map Prod.fst = _
    rw [sendSummary_trace, trace_feedLoop]

/-! ## Entries of a ledger written by the program -/

/-- C10, as the code has it: for a ledger text written from the empty file by
appending `identifier ++ "\n"` for non-empty, newline-free identifiers, a
non-empty link passes the `contains` test against the split text exactly when it
is one of the identifiers; the empty link is none of them and always passes the
test, because of the empty entry that the split leaves after the last line feed. -/
theorem ledger_entries_of_written_text (ids : List String)
    (hne : ∀ l ∈ ids, l ≠ "") (hnl : ∀ l ∈ ids, NewlineFree l) (x : String) :
    (x ≠ "" → (contains (Split (concatLines ids)) x = true ↔ x ∈ ids))
    ∧ contains (Split (concatLines ids)) "" = true
    ∧ "" ∉ ids := by
  refine ⟨?_, ?_, ?_⟩
  · intro hx
    rw [contains_eq_true_iff, Split_concatLines ids hnl]
    simp [hx]
  · rw [contains_eq_true_iff, Split_concatLines ids hnl]
    simp
  · intro h
    exact hne "" h rfl

/-- Two identifiers written from the empty file. -/
theorem ledger_entries_of_written_text_witness :
    (contains (Split (concatLines ["a", "b"])) "b" = true ↔ "b" ∈ ["a", "b"])
    ∧ (contains (Split (concatLines ["a", "b"])) "c" = true ↔ "c" ∈ ["a", "b"]) :=
  ⟨(ledger_entries_of_written_text ["a", "b"] (by decide) (by decide) "b").1 (by decide),
   (ledger_entries_of_written_text ["a", "b"] (by decide) (by decide) "c").1 (by decide)⟩

/-- The empty link passes the test against the empty file and against a file
with one identifier, although it is not among the identifiers written. -/
theorem ledger_blank_entry_counterexample :
    contains (Split (concatLines [])) "" = true ∧ "" ∉ ([] : List String)
    ∧ contains (Split (concatLines ["a"])) "" = true ∧ "" ∉ ["a"] := by
  decide

/-! ## The same link twice in one run -/

/-- C7 at a failing input: empty ledger, cap 5, two feeds each with one item of
link "x", every send and append succeeds.  The list tested at line 134 is the
one loaded at line 120, so the second item is not skipped: it is sent again,
`unsentItemCount` counts it although the line that increments it is commented
"Count only unsent news items", both counters reach 2 and the link is appended
to the file twice. -/
theorem duplicate_link_delivered_twice :
    (main ⟨5⟩ Env.allOk "" [some [linkItem "x"], some [linkItem "x"]]).trace
      = [(linkItem "x", Outcome.recorded), (linkItem "x", Outcome.recorded)]
    ∧ (main ⟨5⟩ Env.allOk "" [some [linkItem "x"], some [linkItem "x"]]).slack
      = [(itemMsg (linkItem "x"), true), (itemMsg (linkItem "x"), true)]
    ∧ (main ⟨5⟩ Env.allOk "" [some [linkItem "x"], some [linkItem "x"]]).totalSentCount = 2
    ∧ (main ⟨5⟩ Env.allOk "" [some [linkItem "x"], some [linkItem "x"]]).unsentItemCount = 2
    ∧ (main ⟨5⟩ Env.allOk "" [some [linkItem "x"], some [linkItem "x"]]).file = "x\nx\n" := by
  decide

/-! ## A summary without a deferred item -/

/-- Cap 5, empty ledger, two unseen items, the first send succeeds and the second
fails.  No item is deferred, a send was attempted for both unseen items,
`totalSentCount` is 1, and the summary is sent all the same: C9 as stated fails
at this run. -/
theorem summary_without_deferral :
    (main ⟨5⟩ ⟨fun k => decide (k = 0), fun _ => AppendResult.ok⟩ ""
        [some [linkItem "a", linkItem "b"]]).trace
      = [(linkItem "a", Outcome.recorded), (linkItem "b", Outcome.sendFailed)]
    ∧ (main ⟨5⟩ ⟨fun k => decide (k = 0), fun _ => AppendResult.ok⟩ ""
        [some [linkItem "a", linkItem "b"]]).totalSentCount = 1
    ∧ (main ⟨5⟩ ⟨fun k => decide (k = 0), fun _ => AppendResult.ok⟩ ""
        [some [linkItem "a", linkItem "b"]]).unsentItemCount = 2
    ∧ (main ⟨5⟩ ⟨fun k => decide (k = 0), fun _ => AppendResult.ok⟩ ""
        [some [linkItem "a", linkItem "b"]]).slack
      = [(itemMsg (linkItem "a"), true), (itemMsg (linkItem "b"), false),
         ("Limit reached. Sent 1 out of 2 unsent news items. 1 news items will be considered in the next run.",
           false)] := by
  decide

/-! ## Runs in which every send and every append succeeds -/

/-- The unseen entries of a trace are the deferred ones, those whose send
failed, and the delivered ones. -/
theorem countP_unseen_split (tr : List (Item × Outcome)) :
    tr.countP (fun e => e.2.unseen)
      = tr.countP (fun e => decide (e.2 = Outcome.deferred))
        + tr.countP (fun e => decide (e.2 = Outcome.sendFailed))
        + tr.countP (fun e => e.2.delivered) := by
  induction tr with
  | nil => rfl
  | cons e es ih =>
    obtain ⟨it, o⟩ := e
    simp only [List.countP_cons, ih]
    cases o <;> simp [Outcome.unseen, Outcome.delivered] <;> omega

theorem sendsOf_all_true (tr : List (Item × Outcome))
    (h : ∀ e ∈ tr, e.2 ≠ Outcome.sendFailed) : ∀ m ∈ sendsOf tr, m.2 = true := by
  intro m hm
  simp only [sendsOf, List.mem_map, List.mem_filter] at hm
  obtain ⟨e, ⟨he, ha⟩, rfl⟩ := hm
  have := h e he
  cases ho : e.2 <;> simp_all [Outcome.attempted, Outcome.delivered]

/-- With a working sink and file system, an item is skipped, deferred or recorded. -/
theorem outcome_of_allOk (config : Config) (env : Env) (data : String) (st : RunState)
    (hinv : Inv config env data st)
    (hsend : ∀ k, env.sendOk k = true) (happ : ∀ k, env.appendRes k = AppendResult.ok) :
    ∀ e ∈ st.trace,
      e.2 = Outcome.skipped ∨ e.2 = Outcome.deferred ∨ e.2 = Outcome.recorded := by
  intro e he
  cases ho : e.2
  · exact Or.inl rfl
  · exact Or.inr (Or.inl rfl)
  · obtain ⟨k, hk⟩ := hinv.sendFailed_env e he ho
    rw [hsend k] at hk; exact Bool.noConfusion hk
  · obtain ⟨k, hk⟩ := hinv.openFailed_env e he ho
    rw [happ k] at hk; exact AppendResult.noConfusion hk
  · obtain ⟨k, hk⟩ := hinv.writeFailed_env e he ho
    rw [happ k] at hk; exact AppendResult.noConfusion hk
  · exact Or.inr (Or.inr rfl)

theorem mem_recordedLinks (tr : List (Item × Outcome)) (x : String) :
    x ∈ recordedLinks tr ↔ ∃ e ∈ tr, e.2 = Outcome.recorded ∧ e.1.Link = x := by
  simp [recordedLinks, and_assoc]

theorem mem_allItems_of_mem_trace (config : Config) (env : Env) (data : String)
    (feeds : List (Option (List Item))) (e : Item × Outcome)
    (he : e ∈ (feedLoop config env data feeds).trace) : e.1 ∈ allItems feeds := by
  rw [← trace_feedLoop config env data feeds]
  exact List.mem_map_of_mem Prod.fst he

/-- C1, as the code has it: for a cap `N = max_news_count ≥ 0`, an initial ledger
text that is empty or ends with a line feed, and fetched feeds whose items have
pairwise distinct, non-empty, newline-free links, if `M > N` items have a link
that is not in the ledger loaded at run start and every send and every append
succeeds, then the run makes exactly `N` item deliveries, all successful
(`totalSentCount = N`, `unsentItemCount = M`), every item is skipped, deferred or
recorded, `M - N` items are deferred, and the link of a deferred item is not an
entry of the ledger file after the run. -/
theorem cap_enforcement (config : Config) (env : Env) (data : String)
    (feeds : List (Option (List Item)))
    (hN : 0 ≤ config.MaxNewsCount)
    (hterm : LedgerTerminated data)
    (hnodup : ((allItems feeds).map Item.Link).Nodup)
    (_hne : ∀ it ∈ allItems feeds, it.Link ≠ "")
    (hnl : ∀ it ∈ allItems feeds, NewlineFree it.Link)
    (hsend : ∀ k, env.sendOk k = true)
    (happ : ∀ k, env.appendRes k = AppendResult.ok)
    (hM : config.MaxNewsCount < (unseenCount (Split data) (allItems feeds) : Nat)) :
    let st := main config env data feeds
    st.totalSentCount = config.MaxNewsCount
    ∧ st.unsentItemCount = (unseenCount (Split data) (allItems feeds) : Nat)
    ∧ (((feedLoop config env data feeds).slack.length : Nat) : Int) = config.MaxNewsCount
    ∧ (∀ m ∈ (feedLoop config env data feeds).slack, m.2 = true)
    ∧ (∀ e ∈ st.trace,
        e.2 = Outcome.skipped ∨ e.2 = Outcome.deferred ∨ e.2 = Outcome.recorded)
    ∧ ((st.trace.countP (fun e => decide (e.2 = Outcome.deferred)) : Nat) : Int)
        = (unseenCount (Split data) (allItems feeds) : Nat) - config.MaxNewsCount
    ∧ ∀ e ∈ st.trace, e.2 = Outcome.deferred →
        contains (Split st.file) e.1.Link = false := by
  have hinv := Inv_feedLoop config env data feeds
  have htr : (main config env data feeds).trace = (feedLoop config env data feeds).trace :=
    sendSummary_trace _ _
  have htot : (main config env data feeds).totalSentCount
      = (feedLoop config env data feeds).totalSentCount := sendSummary_totalSentCount _ _
  have huns : (main config env data feeds).unsentItemCount
      = (feedLoop config env data feeds).unsentItemCount := sendSummary_unsentItemCount _ _
  have hfile : (main config env data feeds).file
      = (feedLoop config env data feeds).file := sendSummary_file _ _
  have hout := outcome_of_allOk config env data _ hinv hsend happ
  have hnosf : ∀ e ∈ (feedLoop config env data feeds).trace, e.2 ≠ Outcome.sendFailed := by
    intro e he h
    rcases hout e he with h1 | h1 | h1 <;> rw [h] at h1 <;> exact Outcome.noConfusion h1
  have hsf0 : (feedLoop config env data feeds).trace.countP
      (fun e => decide (e.2 = Outcome.sendFailed)) = 0 := by
    rw [List.countP_eq_zero]
    intro e he h
    exact hnosf e he (of_decide_eq_true h)
  have hsplit := countP_unseen_split (feedLoop config env data feeds).trace
  rw [hsf0, Nat.add_zero] at hsplit
  have hunseen : (feedLoop config env data feeds).trace.countP (fun e => e.2.unseen)
      = unseenCount (Split data) (allItems feeds) := by
    rw [countP_unseen_eq (Split data) _ hinv.skipped_iff, trace_feedLoop]
  have hcap := hinv.cap hN
  have htotal : (feedLoop config env data feeds).totalSentCount = config.MaxNewsCount := by
    by_cases hex : ∃ e ∈ (feedLoop config env data feeds).trace, e.2 = Outcome.deferred
    · obtain ⟨e, he, hd⟩ := hex
      exact le_antisymm hcap (hinv.deferred_cap e he hd)
    · have hd0 : (feedLoop config env data feeds).trace.countP
          (fun e => decide (e.2 = Outcome.deferred)) = 0 := by
        rw [List.countP_eq_zero]
        intro e he h
        exact hex ⟨e, he, of_decide_eq_true h⟩
      have h1 := hinv.total_eq
      rw [hd0, Nat.zero_add] at hsplit
      rw [← hsplit, hunseen] at h1
      omega
  have hall := sendsOf_all_true _ hnosf
  refine ⟨?_, ?_, ?_, ?_, ?_, ?_, ?_⟩
  · show (main config env data feeds).totalSentCount = _
    rw [htot, htotal]
  · show (main config env data feeds).unsentItemCount = _
    rw [huns, hinv.unsent_eq, hunseen]
  · have hlen : (feedLoop config env data feeds).slack.length
        = (feedLoop config env data feeds).trace.countP (fun e => e.2.delivered) := by
      rw [← length_filter_sendsOf, hinv.slack_eq, List.filter_eq_self.mpr hall]
    rw [hlen, ← hinv.total_eq, htotal]
  · rw [hinv.slack_eq]; exact hall
  · show ∀ e ∈ (main config env data feeds).trace, _
    rw [htr]; exact hout
  · show (((main config env data feeds).trace.countP _ : Nat) : Int) = _
    rw [htr]
    have h1 := hinv.total_eq
    rw [htotal] at h1
    rw [← hunseen, hsplit, h1]
    push_cast
    ring
  · show ∀ e ∈ (main config env data feeds).trace, _ →
      contains (Split (main config env data feeds).file) e.1.Link = false
    rw [htr, hfile]
    intro e he hd
    rw [contains_eq_false_iff, hinv.file_eq, mem_Split_append_concatLines data _ hterm]
    · rintro (h | h)
      · have hc := (contains_eq_true_iff _ _).mpr h
        have := (hinv.skipped_iff e he).mpr hc
        rw [hd] at this
        exact Outcome.noConfusion this
      · obtain ⟨e2, he2, hr, hl⟩ := (mem_recordedLinks _ _).mp h
        have hnd : ((feedLoop config env data feeds).trace.map
            (fun e => e.1.Link)).Nodup := by
          have : (feedLoop config env data feeds).trace.map (fun e => e.1.Link)
              = ((feedLoop config env data feeds).trace.map Prod.fst).map Item.Link := by
            simp [Function.comp_def]
          rw [this, trace_feedLoop]; exact hnodup
        have heq := List.inj_on_of_nodup_map hnd he2 he hl
        rw [heq, hd] at hr
        exact Outcome.noConfusion hr
    · intro l hl
      obtain ⟨e2, he2, _, hl2⟩ := (mem_recordedLinks _ _).mp hl
      rw [← hl2]
      exact hnl _ (mem_allItems_of_mem_trace config env data feeds e2 he2)

/-- Cap 1, ledger with one entry, three unseen items in two feeds. -/
theorem cap_enforcement_witness :
    LedgerTerminated "old\n"
    ∧ (main ⟨1⟩ Env.allOk "old\n"
        [some [linkItem "old", linkItem "a"], none, some [linkItem "b", linkItem "c"]]
      ).totalSentCount = 1
    ∧ ∀ e ∈ (main ⟨1⟩ Env.allOk "old\n"
        [some [linkItem "old", linkItem "a"], none, some [linkItem "b", linkItem "c"]]).trace,
        e.2 = Outcome.deferred →
        contains (Split (main ⟨1⟩ Env.allOk "old\n"
          [some [linkItem "old", linkItem "a"], none, some [linkItem "b", linkItem "c"]]).file)
          e.1.Link = false :=
  have h := cap_enforcement ⟨1⟩ Env.allOk "old\n"
    [some [linkItem "old", linkItem "a"], none, some [linkItem "b", linkItem "c"]]
    (by decide) (by decide) (by decide) (by decide) (by decide)
    (fun _ => rfl) (fun _ => rfl) (by decide)
  ⟨by decide, h.1, h.2.2.2.2.2.2⟩

/-- Initial ledger text "abc" without a final line feed, cap 1, two unseen items
with the links "def" and "abcdef": the hypotheses of C1 hold, "def" is
delivered and appended, which makes the file "abcdef" followed by a line feed,
"abcdef" is deferred, and its link is an entry of the ledger after the run. -/
theorem cap_enforcement_counterexample :
    (0 : Int) ≤ (⟨1⟩ : Config).MaxNewsCount
    ∧ ((allItems [some [linkItem "def", linkItem "abcdef"]]).map Item.Link).Nodup
    ∧ (∀ it ∈ allItems [some [linkItem "def", linkItem "abcdef"]], it.Link ≠ "")
    ∧ (∀ it ∈ allItems [some [linkItem "def", linkItem "abcdef"]], NewlineFree it.Link)
    ∧ unseenCount (Split "abc") (allItems [some [linkItem "def", linkItem "abcdef"]]) = 2
    ∧ (main ⟨1⟩ Env.allOk "abc" [some [linkItem "def", linkItem "abcdef"]]).totalSentCount = 1
    ∧ (main ⟨1⟩ Env.allOk "abc" [some [linkItem "def", linkItem "abcdef"]]).unsentItemCount = 2
    ∧ (main ⟨1⟩ Env.allOk "abc" [some [linkItem "def", linkItem "abcdef"]]).trace
        = [(linkItem "def", Outcome.recorded), (linkItem "abcdef", Outcome.deferred)]
    ∧ (main ⟨1⟩ Env.allOk "abc" [some [linkItem "def", linkItem "abcdef"]]).file
        = "abcdef\n"
    ∧ contains
        (Split (main ⟨1⟩ Env.allOk "abc" [some [linkItem "def", linkItem "abcdef"]]).file)
        "abcdef" = true := by
  decide

/-! ## Two runs in succession -/

theorem countP_delivered_of_skipped (tr : List (Item × Outcome))
    (h : ∀ e ∈ tr, e.2 = Outcome.skipped) : tr.countP (fun e => e.2.delivered) = 0 := by
  rw [List.countP_eq_zero]
  intro e he hd
  rw [h e he] at hd
  exact Bool.noConfusion hd

theorem countP_unseen_of_skipped (tr : List (Item × Outcome))
    (h : ∀ e ∈ tr, e.2 = Outcome.skipped) : tr.countP (fun e => e.2.unseen) = 0 := by
  rw [List.countP_eq_zero]
  intro e he hd
  rw [h e he] at hd
  exact Bool.noConfusion hd

theorem sendsOf_of_skipped (tr : List (Item × Outcome))
    (h : ∀ e ∈ tr, e.2 = Outcome.skipped) : sendsOf tr = [] := by
  unfold sendsOf
  rw [List.map_eq_nil_iff, List.filter_eq_nil_iff]
  intro e he ha
  rw [h e he] at ha
  exact Bool.noConfusion ha

theorem recordedLinks_of_skipped (tr : List (Item × Outcome))
    (h : ∀ e ∈ tr, e.2 = Outcome.skipped) : recordedLinks tr = [] := by
  unfold recordedLinks
  rw [List.map_eq_nil_iff, List.filter_eq_nil_iff]
  intro e he ha
  rw [h e he] at ha
  simp at ha

/-- C6: for feeds whose item links contain no line feed and an initial ledger text
that is empty or ends with a line feed, if in a first run every send and every
append succeeds and `max_news_count` is at least the number of unseen items, then
a second run over the same fetched items that loads the ledger text left by the
first run, whatever its cap and whatever the sink and the file system do, skips
every item, sends nothing (no item message and no summary), and leaves the
ledger file and both counters untouched. -/
theorem idempotence_across_runs (config config2 : Config) (env env2 : Env) (data : String)
    (feeds : List (Option (List Item)))
    (hterm : LedgerTerminated data)
    (hnl : ∀ it ∈ allItems feeds, NewlineFree it.Link)
    (hsend : ∀ k, env.sendOk k = true)
    (happ : ∀ k, env.appendRes k = AppendResult.ok)
    (hcap : ((unseenCount (Split data) (allItems feeds) : Nat) : Int)
      ≤ config.MaxNewsCount) :
    let first := main config env data feeds
    let second := main config2 env2 first.file feeds
    second.slack = []
    ∧ second.file = first.file
    ∧ second.totalSentCount = 0
    ∧ second.unsentItemCount = 0
    ∧ second.trace.map Prod.fst = allItems feeds
    ∧ ∀ e ∈ second.trace, e.2 = Outcome.skipped := by
  intro first second
  have hinv := Inv_feedLoop config env data feeds
  have hfile : first.file = (feedLoop config env data feeds).file := sendSummary_file _ _
  have hout := outcome_of_allOk config env data _ hinv hsend happ
  have hsplit := countP_unseen_split (feedLoop config env data feeds).trace
  have hunseen : (feedLoop config env data feeds).trace.countP (fun e => e.2.unseen)
      = unseenCount (Split data) (allItems feeds) := by
    rw [countP_unseen_eq (Split data) _ hinv.skipped_iff, trace_feedLoop]
  -- no item of the first run is deferred
  have hnodef : ∀ e ∈ (feedLoop config env data feeds).trace, e.2 ≠ Outcome.deferred := by
    intro e he hd
    have h1 := hinv.deferred_cap e he hd
    have h2 := hinv.total_eq
    have h3 : 0 < (feedLoop config env data feeds).trace.countP
        (fun e => decide (e.2 = Outcome.deferred)) :=
      List.countP_pos_iff.mpr ⟨e, he, decide_eq_true hd⟩
    rw [← hunseen, hsplit] at hcap
    push_cast at hcap
    omega
  -- so every link is an entry of the ledger the first run leaves behind
  have hseen : ∀ it ∈ allItems feeds, contains (Split first.file) it.Link = true := by
    intro it hit
    rw [← trace_feedLoop config env data feeds] at hit
    obtain ⟨e, he, rfl⟩ := List.mem_map.mp hit
    rw [contains_eq_true_iff, hfile, hinv.file_eq,
      mem_Split_append_concatLines data _ hterm]
    · rcases hout e he with h | h | h
      · exact Or.inl ((contains_eq_true_iff _ _).mp ((hinv.skipped_iff e he).mp h))
      · exact absurd h (hnodef e he)
      · exact Or.inr ((mem_recordedLinks _ _).mpr ⟨e, he, h, rfl⟩)
    · intro l hl
      obtain ⟨e2, he2, _, hl2⟩ := (mem_recordedLinks _ _).mp hl
      rw [← hl2]
      exact hnl _ (mem_allItems_of_mem_trace config env data feeds e2 he2)
  have hinv2 := Inv_feedLoop config2 env2 first.file feeds
  have hskip : ∀ e ∈ (feedLoop config2 env2 first.file feeds).trace,
      e.2 = Outcome.skipped := by
    intro e he
    exact (hinv2.skipped_iff e he).mpr
      (hseen _ (mem_allItems_of_mem_trace config2 env2 first.file feeds e he))
  have htot2 : (feedLoop config2 env2 first.file feeds).totalSentCount = 0 := by
    rw [hinv2.total_eq, countP_delivered_of_skipped _ hskip]; rfl
  have hsecond : second = feedLoop config2 env2 first.file feeds := by
    show sendSummary env2 _ = _
    apply sendSummary_of_not
    rintro ⟨_, h⟩
    omega
  rw [hsecond]
  refine ⟨?_, ?_, htot2, ?_, trace_feedLoop _ _ _ _, hskip⟩
  · rw [hinv2.slack_eq, sendsOf_of_skipped _ hskip]
  · rw [hinv2.file_eq, recordedLinks_of_skipped _ hskip]
    simp [concatLines]
  · rw [hinv2.unsent_eq, countP_unseen_of_skipped _ hskip]; rfl

/-- Empty ledger, two feeds with three items, cap 5: the second run over the
file the first run wrote sends nothing and leaves the file as it is. -/
theorem idempotence_across_runs_witness :
    LedgerTerminated ""
    ∧ (main ⟨5⟩ Env.allOk "" [some [linkItem "a", linkItem "b"], some [linkItem "c"]]).file
        = "a\nb\nc\n"
    ∧ (main ⟨5⟩ Env.allOk
        (main ⟨5⟩ Env.allOk "" [some [linkItem "a", linkItem "b"], some [linkItem "c"]]).file
        [some [linkItem "a", linkItem "b"], some [linkItem "c"]]).slack = []
    ∧ (main ⟨5⟩ Env.allOk
        (main ⟨5⟩ Env.allOk "" [some [linkItem "a", linkItem "b"], some [linkItem "c"]]).file
        [some [linkItem "a", linkItem "b"], some [linkItem "c"]]).file
      = (main ⟨5⟩ Env.allOk "" [some [linkItem "a", linkItem "b"], some [linkItem "c"]]).file :=
  have h := idempotence_across_runs ⟨5⟩ ⟨5⟩ Env.allOk Env.allOk ""
    [some [linkItem "a", linkItem "b"], some [linkItem "c"]]
    (by decide) (by decide) (fun _ => rfl) (fun _ => rfl) (by decide)
  ⟨by decide, by decide, h.1, h.2.1⟩

/-! ## When the summary is sent -/

/-- The guard of line 163 in terms of the trace: `unsentItemCount` exceeds
`totalSentCount` exactly when some item was deferred or had its send fail. -/
theorem unsent_gt_total_iff (config : Config) (env : Env) (data : String) (st : RunState)
    (hinv : Inv config env data st) :
    st.unsentItemCount > st.totalSentCount
      ↔ ∃ e ∈ st.trace, e.2 = Outcome.deferred ∨ e.2 = Outcome.sendFailed := by
  have hsplit := countP_unseen_split st.trace
  rw [hinv.unsent_eq, hinv.total_eq, hsplit]
  constructor
  · intro h
    have hpos : 0 < st.trace.countP (fun e => decide (e.2 = Outcome.deferred))
        ∨ 0 < st.trace.countP (fun e => decide (e.2 = Outcome.sendFailed)) := by
      push_cast at h
      omega
    rcases hpos with hp | hp
    · obtain ⟨e, he, hd⟩ := List.countP_pos_iff.mp hp
      exact ⟨e, he, Or.inl (of_decide_eq_true hd)⟩
    · obtain ⟨e, he, hd⟩ := List.countP_pos_iff.mp hp
      exact ⟨e, he, Or.inr (of_decide_eq_true hd)⟩
  · rintro ⟨e, he, hd | hd⟩
    · have hp : 0 < st.trace.countP (fun e => decide (e.2 = Outcome.deferred)) :=
        List.countP_pos_iff.mpr ⟨e, he, decide_eq_true hd⟩
      push_cast
      omega
    · have hp : 0 < st.trace.countP (fun e => decide (e.2 = Outcome.sendFailed)) :=
        List.countP_pos_iff.mpr ⟨e, he, decide_eq_true hd⟩
      push_cast
      omega

/-- C9, as the code has it: in every run the summary notification is sent
exactly when `totalSentCount > 0` and at least one unseen item was not delivered
in this run, because it was deferred by the cap or because its send failed.  So
it is sent whenever `totalSentCount > 0` and an item was deferred, it is also
sent when `totalSentCount > 0` and a send failed, and a run in which every
unseen item was delivered sends no summary.  An item is deferred only when
`totalSentCount` has reached `max_news_count`. -/
theorem summary_iff_undelivered (config : Config) (env : Env) (data : String)
    (feeds : List (Option (List Item))) :
    let st := feedLoop config env data feeds
    let fin := main config env data feeds
    ((st.totalSentCount > 0
        ∧ ∃ e ∈ st.trace, e.2 = Outcome.deferred ∨ e.2 = Outcome.sendFailed) →
      fin.slack = st.slack ++
        [(summaryMsg st.totalSentCount st.unsentItemCount, env.sendOk st.slack.length)])
    ∧ (¬ (st.totalSentCount > 0
        ∧ ∃ e ∈ st.trace, e.2 = Outcome.deferred ∨ e.2 = Outcome.sendFailed) →
      fin.slack = st.slack)
    ∧ ((st.totalSentCount > 0 ∧ ∃ e ∈ st.trace, e.2 = Outcome.deferred) →
      fin.slack = st.slack ++
        [(summaryMsg st.totalSentCount st.unsentItemCount, env.sendOk st.slack.length)])
    ∧ ((∀ e ∈ st.trace, e.2.unseen = true → e.2.delivered = true) → fin.slack = st.slack)
    ∧ (∀ e ∈ st.trace, e.2 = Outcome.deferred → config.MaxNewsCount ≤ st.totalSentCount)
    ∧ st.trace.map Prod.fst = allItems feeds
    ∧ st.slack = sendsOf st.trace := by
  intro st fin
  have hinv : Inv config env data st := Inv_feedLoop config env data feeds
  have hfin : fin = sendSummary env st := rfl
  have hiff := unsent_gt_total_iff config env data st hinv
  have hsent : (st.totalSentCount > 0
        ∧ ∃ e ∈ st.trace, e.2 = Outcome.deferred ∨ e.2 = Outcome.sendFailed) →
      fin.slack = st.slack ++
        [(summaryMsg st.totalSentCount st.unsentItemCount, env.sendOk st.slack.length)] := by
    rintro ⟨hpos, hex⟩
    have hcond : st.unsentItemCount > st.totalSentCount ∧ st.totalSentCount > 0 :=
      ⟨hiff.mpr hex, hpos⟩
    rw [hfin]
    unfold sendSummary
    rw [if_pos hcond]
  have hnot : ¬ (st.totalSentCount > 0
        ∧ ∃ e ∈ st.trace, e.2 = Outcome.deferred ∨ e.2 = Outcome.sendFailed) →
      fin.slack = st.slack := by
    intro hn
    rw [hfin, sendSummary_of_not]
    rintro ⟨h1, h2⟩
    exact hn ⟨h2, hiff.mp h1⟩
  refine ⟨hsent, hnot, ?_, ?_, hinv.deferred_cap, trace_feedLoop _ _ _ _, hinv.slack_eq⟩
  · rintro ⟨hpos, e, he, hd⟩
    exact hsent ⟨hpos, e, he, Or.inl hd⟩
  · intro hall
    apply hnot
    rintro ⟨_, e, he, hd | hd⟩
    · have := hall e he (by rw [hd]; rfl)
      rw [hd] at this
      exact Bool.noConfusion this
    · have := hall e he (by rw [hd]; rfl)
      rw [hd] at this
      exact Bool.noConfusion this

end RSSlackPublisher
